import Mathlib

/-!
Verification of the contract-QA pipeline (`src/app.py`).

The development embeds, in order:
* the proleptic Gregorian calendar arithmetic used by `calculate_deadline`
  (mirroring CPython `datetime`: `_ymd2ord`, ordinal range 1..3652059,
  `strptime` with format `%Y-%m-%d`, `strftime` zero-padded output);
* the tool `calculate_deadline` (src/app.py lines 39-47);
* the tool `extract_monetary_values` (src/app.py lines 49-53), including the
  `re.findall` semantics for a pattern with a single capturing group;
* the Chunker, Indexer/Retriever and the path-keyed cache of `process_pdf`
  (src/app.py lines 57-85, 124-132); the concrete chunker/vector-store
  algorithms live in third-party libraries, so those components are modelled
  from the spec where noted.
-/

set_option maxRecDepth 20000

namespace LegalApp

/-! ### Gregorian calendar model (CPython `datetime` semantics)

CPython represents dates by an ordinal day count with `0001-01-01` as day 1
and `9999-12-31` as day `_MAXORDINAL = 3652059`; `date + timedelta(days=k)`
computes `fromordinal(toordinal(self) + k)` and raises `OverflowError`
outside `1..._MAXORDINAL`.  The definitions below mirror that arithmetic. -/

/-- Gregorian leap-year test, as in CPython `datetime._is_leap`. -/
def isLeap (y : Nat) : Bool :=
  decide (y % 4 = 0 ∧ (y % 100 ≠ 0 ∨ y % 400 = 0))

/-- Length of month `m` of year `y`, as in CPython `_days_in_month`. -/
def daysInMonth (y m : Nat) : Nat :=
  if m = 2 then (if isLeap y then 29 else 28)
  else if m = 4 ∨ m = 6 ∨ m = 9 ∨ m = 11 then 30
  else 31

/-- Number of days in year `y`. -/
def daysInYear (y : Nat) : Nat := if isLeap y then 366 else 365

/-- Days strictly before January 1st of year `y`, as in CPython
`_days_before_year`: `(y-1)*365 + (y-1)//4 - (y-1)//100 + (y-1)//400`. -/
def daysBeforeYear (y : Nat) : Nat :=
  365 * (y - 1) + (y - 1) / 4 - (y - 1) / 100 + (y - 1) / 400

/-- The twelve month lengths of year `y`, in month order (CPython
`_DAYS_IN_MONTH` with the February leap adjustment). -/
def monthLengths (y : Nat) : List Nat :=
  [31, if isLeap y then 29 else 28, 31, 30, 31, 30, 31, 31, 30, 31, 30, 31]

/-- Days of year `y` strictly before month `m`, as in CPython
`_days_before_month` (the cumulative sum of the month lengths). -/
def daysBeforeMonth (y m : Nat) : Nat := ((monthLengths y).take (m - 1)).sum

/-- Ordinal of a calendar date, as in CPython `_ymd2ord`
(`0001-01-01` is ordinal 1). -/
def toOrdinal (y m d : Nat) : Nat :=
  daysBeforeYear y + daysBeforeMonth y m + d

/-- Largest representable ordinal, CPython `_MAXORDINAL` (= 3652059). -/
def maxOrdinal : Nat := toOrdinal 9999 12 31

/-- A valid CPython `datetime.date` triple: year 1..9999, month 1..12,
day 1..month length. -/
def ValidDate (y m d : Nat) : Prop :=
  1 ≤ y ∧ y ≤ 9999 ∧ 1 ≤ m ∧ m ≤ 12 ∧ 1 ≤ d ∧ d ≤ daysInMonth y m

instance (y m d : Nat) : Decidable (ValidDate y m d) := by
  unfold ValidDate; infer_instance

/-- Calendar successor of a date triple. -/
def nextDay : Nat × Nat × Nat → Nat × Nat × Nat
  | (y, m, d) =>
    if d < daysInMonth y m then (y, m, d + 1)
    else if m < 12 then (y, m + 1, 1)
    else (y + 1, 1, 1)

/-- Calendar predecessor of a date triple. -/
def prevDay : Nat × Nat × Nat → Nat × Nat × Nat
  | (y, m, d) =>
    if 1 < d then (y, m, d - 1)
    else if 1 < m then (y, m - 1, daysInMonth y (m - 1))
    else (y - 1, 12, 31)

/-- Locate day-of-year `n` inside successive month lengths, returning the
month counter and the day within that month. -/
def splitMonths : List Nat → Nat → Nat → Nat × Nat
  | [], m, n => (m, n)
  | l :: ls, m, n => if n ≤ l then (m, n) else splitMonths ls (m + 1) (n - l)

/-- Year-scanning loop converting an ordinal to a date; the fuel argument
bounds the number of year steps (10000 suffices for the whole ordinal
range). -/
def fromOrdinalGo : Nat → Nat → Nat → Nat × Nat × Nat
  | 0, y, n => (y, 1, n)
  | fuel + 1, y, n =>
    if n ≤ daysInYear y then
      let md := splitMonths (monthLengths y) 1 n
      (y, md.1, md.2)
    else fromOrdinalGo fuel (y + 1) (n - daysInYear y)

/-- Date triple of an ordinal in `1...maxOrdinal`, as in CPython
`_ord2ymd`. -/
def fromOrdinal (n : Nat) : Nat × Nat × Nat := fromOrdinalGo 10000 1 n

/-! ### Formatting (`strftime("%Y-%m-%d")`) -/

/-- The decimal digit character for `n < 10`. -/
def dChar : Nat → Char
  | 0 => '0' | 1 => '1' | 2 => '2' | 3 => '3' | 4 => '4'
  | 5 => '5' | 6 => '6' | 7 => '7' | 8 => '8' | 9 => '9'
  | _ => '*'

/-- Two-digit zero-padded decimal rendering (`%m`, `%d`). -/
def pad2 (n : Nat) : List Char := [dChar (n / 10 % 10), dChar (n % 10)]

/-- Four-digit zero-padded decimal rendering (`%Y`, as documented for
CPython `strftime`). -/
def pad4 (n : Nat) : List Char :=
  [dChar (n / 1000 % 10), dChar (n / 100 % 10), dChar (n / 10 % 10), dChar (n % 10)]

/-- `strftime("%Y-%m-%d")` on a date triple. -/
def formatDate (y m d : Nat) : String :=
  String.mk (pad4 y ++ '-' :: pad2 m ++ '-' :: pad2 d)

/-- `formatDate` uncurried. -/
def formatTriple (t : Nat × Nat × Nat) : String := formatDate t.1 t.2.1 t.2.2

/-! ### Parsing (`strptime(s, "%Y-%m-%d")`)

CPython `_strptime` compiles the format to the anchored regular expression
`(?P<Y>\d\d\d\d)-(?P<m>1[0-2]|0[1-9]|[1-9])-(?P<d>3[01]|[12]\d|0[1-9]|[1-9])`,
requires the whole string to be consumed, and then builds a `date`, which
validates the day against the month length (raising `ValueError` otherwise).
`\d` is modelled as the ASCII digits (code points 48-57). -/

/-- ASCII digit test (the `\d` character class on ASCII input). -/
def isD (c : Char) : Bool := decide (48 ≤ c.toNat ∧ c.toNat ≤ 57)

/-- Numeric value of an ASCII digit character. -/
def digitVal (c : Char) : Nat := c.toNat - 48

/-- The `%m` pattern `1[0-2]|0[1-9]|[1-9]`, alternatives tried in order,
returning the month and the unconsumed remainder. -/
def parseM : List Char → Option (Nat × List Char)
  | [] => none
  | [c] => if 49 ≤ c.toNat ∧ c.toNat ≤ 57 then some (digitVal c, []) else none
  | c1 :: c2 :: rest =>
    if c1.toNat = 49 ∧ 48 ≤ c2.toNat ∧ c2.toNat ≤ 50 then
      some (10 + digitVal c2, rest)
    else if c1.toNat = 48 ∧ 49 ≤ c2.toNat ∧ c2.toNat ≤ 57 then
      some (digitVal c2, rest)
    else if 49 ≤ c1.toNat ∧ c1.toNat ≤ 57 then
      some (digitVal c1, c2 :: rest)
    else none

/-- The `%d` pattern `3[01]|[12]\d|0[1-9]|[1-9]`, alternatives tried in
order. -/
def parseD : List Char → Option (Nat × List Char)
  | [] => none
  | [c] => if 49 ≤ c.toNat ∧ c.toNat ≤ 57 then some (digitVal c, []) else none
  | c1 :: c2 :: rest =>
    if c1.toNat = 51 ∧ (c2.toNat = 48 ∨ c2.toNat = 49) then
      some (30 + digitVal c2, rest)
    else if (c1.toNat = 49 ∨ c1.toNat = 50) ∧ isD c2 then
      some (10 * digitVal c1 + digitVal c2, rest)
    else if c1.toNat = 48 ∧ 49 ≤ c2.toNat ∧ c2.toNat ≤ 57 then
      some (digitVal c2, rest)
    else if 49 ≤ c1.toNat ∧ c1.toNat ≤ 57 then
      some (digitVal c1, c2 :: rest)
    else none

/-- After year, dash and month: the day parse must consume the rest of the
input exactly, and `date(y, m, d)` validation requires year at least 1 and
day within the month. -/
def parseYmdTail2 (y m : Nat) : Option (Nat × List Char) → Option (Nat × Nat × Nat)
  | some (d, []) => if 1 ≤ y ∧ d ≤ daysInMonth y m then some (y, m, d) else none
  | _ => none

/-- After year and first dash: the month parse must be followed by the
second dash and the day. -/
def parseYmdTail1 (y : Nat) : Option (Nat × List Char) → Option (Nat × Nat × Nat)
  | some (m, c6 :: rest2) =>
    if c6.toNat = 45 then parseYmdTail2 y m (parseD rest2) else none
  | _ => none

/-- Full `%Y-%m-%d` parse: four digits, dash, month, dash, day, end of
input, then `date(y, m, d)` validation. -/
def parseYmd (l : List Char) : Option (Nat × Nat × Nat) :=
  match l with
  | c1 :: c2 :: c3 :: c4 :: c5 :: rest =>
    if isD c1 ∧ isD c2 ∧ isD c3 ∧ isD c4 ∧ c5.toNat = 45 then
      parseYmdTail1
        (((digitVal c1 * 10 + digitVal c2) * 10 + digitVal c3) * 10 + digitVal c4)
        (parseM rest)
    else none
  | _ => none

/-- `datetime.strptime(s, "%Y-%m-%d")`, returning `none` where CPython
raises `ValueError`. -/
def strptimeYmd (s : String) : Option (Nat × Nat × Nat) := parseYmd s.data

/-- Exceptions that can escape `calculate_deadline` (only `ValueError` is
caught by the function body). -/
inductive PyExn
  | overflowError
deriving DecidableEq

/-- The tool `calculate_deadline` (src/app.py lines 39-47): parse the start
date with `strptime("%Y-%m-%d")`, add `days` calendar days, render with
`strftime("%Y-%m-%d")`; a `ValueError` from parsing is caught and turned
into the fixed error string, while an out-of-range result raises
`OverflowError` (uncaught, modelled as `Except.error`). -/
def calculate_deadline (start_date_str : String) (days : Int) : Except PyExn String :=
  match strptimeYmd start_date_str with
  | none => .ok "Error: Use YYYY-MM-DD format."
  | some (y, m, d) =>
    let o : Int := (toOrdinal y m d : Int) + days
    if 1 ≤ o ∧ o ≤ (maxOrdinal : Int) then .ok (formatTriple (fromOrdinal o.toNat))
    else .error .overflowError

/-! ### The tool `extract_monetary_values` (src/app.py lines 49-53)

The pattern is `(\$|USD|€|EUR|£)\s?\d{1,3}(?:,\d{3})*(?:\.\d{2})?` and the
code returns `re.findall(pattern, text)`.  Because the pattern contains
exactly one capturing group (the currency marker), `re.findall` returns the
list of group-1 captures, not the full matches.  The matcher below is the
deterministic residue of the backtracking engine on this pattern: the five
marker alternatives are tried in order, and each quantified tail
(`\s?`, `\d{1,3}`, `(?:,\d{3})*`, `(?:\.\d{2})?`) is greedy; since every
part after `\d{1,3}` can match the empty string, greedy consumption without
backtracking coincides with the engine's behaviour.  `\s` is modelled by
the ASCII whitespace characters. -/

/-- ASCII whitespace (the `\s` class on ASCII input). -/
def isPySpace (c : Char) : Bool :=
  decide (c.toNat = 32 ∨ (9 ≤ c.toNat ∧ c.toNat ≤ 13))

/-- Drop up to `k` further leading ASCII digits (greedy `\d` repetition). -/
def dropDigitsUpTo : Nat → List Char → List Char
  | 0, s => s
  | _ + 1, [] => []
  | k + 1, c :: t => if isD c then dropDigitsUpTo k t else c :: t

/-- Greedy `(?:,\d{3})*`: repeatedly consume a comma followed by exactly
three digits. -/
def starComma : List Char → List Char
  | c0 :: c1 :: c2 :: c3 :: t =>
    if c0.toNat = 44 ∧ isD c1 ∧ isD c2 ∧ isD c3 then starComma t
    else c0 :: c1 :: c2 :: c3 :: t
  | s => s

/-- Greedy `(?:\.\d{2})?`: consume a dot and two digits when present. -/
def optCents : List Char → List Char
  | c0 :: c1 :: c2 :: t =>
    if c0.toNat = 46 ∧ isD c1 ∧ isD c2 then t
    else c0 :: c1 :: c2 :: t
  | s => s

/-- Match `\s?\d{1,3}(?:,\d{3})*(?:\.\d{2})?` at the head of `s`, returning
the remainder on success. -/
def matchAmount (s : List Char) : Option (List Char) :=
  let s1 := match s with
    | c :: t => if isPySpace c then t else c :: t
    | [] => []
  match s1 with
  | c :: t => if isD c then some (optCents (starComma (dropDigitsUpTo 2 t))) else none
  | [] => none

/-- Consume a literal character sequence from the head of the input. -/
def stripLit : List Char → List Char → Option (List Char)
  | [], s => some s
  | _ :: _, [] => none
  | c :: cs, d :: ds => if c = d then stripLit cs ds else none

/-- The five marker alternatives of the capturing group, in the pattern's
order: `\$`, `USD`, `€`, `EUR`, `£`. -/
def markers : List (List Char) := [['$'], ['U', 'S', 'D'], ['€'], ['E', 'U', 'R'], ['£']]

/-- Try each marker alternative in order at the current position; on a full
match of marker and amount, return the captured marker and the remainder
after the whole match. -/
def tryMarkers : List (List Char) → List Char → Option (List Char × List Char)
  | [], _ => none
  | mk :: mks, s =>
    match stripLit mk s with
    | some s1 =>
      match matchAmount s1 with
      | some rest => some (mk, rest)
      | none => tryMarkers mks s
    | none => tryMarkers mks s

/-- The `re.findall` scan: at each position emit the group-1 capture of the
leftmost match and resume after the match, otherwise advance one character.
The fuel argument bounds the number of scan steps; the input length
suffices since every step consumes at least one character. -/
def findAllGo : Nat → List Char → List (List Char)
  | 0, _ => []
  | fuel + 1, s =>
    match tryMarkers markers s with
    | some (mk, rest) => mk :: findAllGo fuel rest
    | none =>
      match s with
      | [] => []
      | _ :: t => findAllGo fuel t

/-- The tool `extract_monetary_values` (src/app.py lines 49-53):
`re.findall` of the monetary pattern, which returns only the capturing
group (the currency marker) of each match. -/
def extract_monetary_values (text : String) : List String :=
  (findAllGo text.data.length text.data).map (fun l => String.mk l)

/-! ### Spec-side date vocabulary -/

/-- Validity of a date triple. -/
def ValidT (t : Nat × Nat × Nat) : Prop := ValidDate t.1 t.2.1 t.2.2

instance (t : Nat × Nat × Nat) : Decidable (ValidT t) := by
  unfold ValidT; infer_instance

/-- Ordinal of a date triple. -/
def toOrdinalT (t : Nat × Nat × Nat) : Nat := toOrdinal t.1 t.2.1 t.2.2

/-- The spec's notion of adding `j` calendar days to a date: iterate the
calendar successor (or, for negative `j`, the calendar predecessor). -/
def addDaysSpec (t : Nat × Nat × Nat) (j : Int) : Nat × Nat × Nat :=
  if 0 ≤ j then nextDay^[j.toNat] t else prevDay^[(-j).toNat] t

/-- A string is a well-formed `YYYY-MM-DD` calendar date exactly when it is
the zero-padded rendering of a valid date. -/
def WellFormedYmd (s : String) : Prop :=
  ∃ y m d, ValidDate y m d ∧ s = formatDate y m d

/-! ### Chunker

Modelled from the spec: the concrete splitter in `process_pdf`
(src/app.py line 69) is the third-party `RecursiveCharacterTextSplitter`,
whose code is not under `src/`; the spec (sections 4.2 and 8) describes the
Chunker as a deterministic sliding window of `chunk_size = 1000` characters
advancing by `chunk_size - overlap = 1000 - 150` characters, the final
window possibly shorter, with an `EmptyInputError` failure on empty
input. -/

/-- Modelled from the spec: deterministic sliding-window chunking with
chunk size 1000 and overlap 150 (the parameters passed at src/app.py
line 69).  Text no longer than one chunk yields exactly one chunk. -/
def chunkText (s : List Char) : List (List Char) :=
  if h : s.length ≤ 1000 then [s]
  else s.take 1000 :: chunkText (s.drop (1000 - 150))
termination_by s.length
decreasing_by simp only [List.length_drop]; omega

/-- Undo the overlap: trim the trailing 150 characters of every non-final
chunk, keep the final chunk whole, and concatenate. -/
def deOverlap : List (List Char) → List Char
  | [] => []
  | [c] => c
  | c :: rest => c.take (c.length - 150) ++ deOverlap rest

/-- The distinguishable chunking failure posited by the spec. -/
inductive ChunkErr
  | emptyInputError
deriving DecidableEq

/-- Modelled from the spec: the chunking step of the build pipeline, which
fails with `EmptyInputError` on empty input and otherwise chunks. -/
def chunkStep (s : List Char) : Except ChunkErr (List (List Char)) :=
  if s.isEmpty then .error .emptyInputError else .ok (chunkText s)

/-! ### Indexer and Retriever

Modelled from the spec: the vector store and embeddings of `process_pdf`
and `analyze_query` (src/app.py lines 72-84) are third-party (`FAISS`,
`OpenAIEmbeddings`), so the Index is modelled per the spec (section 4.3) as
the insertion-ordered chunk sequence, a query as an arbitrary similarity
score over chunks (rational-valued, produced by the fixed embedding
scheme), and search as ranking by descending score with ties broken by
insertion order.  `k = 5` is the retriever parameter from src/app.py
line 83. -/

/-- Ranking order on indexed chunks: higher similarity score first, ties
broken by the original insertion index. -/
def rankRel (score : List Char → ℚ) (a b : Nat × List Char) : Prop :=
  score b.2 < score a.2 ∨ (score a.2 = score b.2 ∧ a.1 ≤ b.1)

instance (score : List Char → ℚ) : DecidableRel (rankRel score) := by
  unfold rankRel; infer_instance

instance (score : List Char → ℚ) : IsTotal (Nat × List Char) (rankRel score) := by
  constructor
  intro a b
  rcases lt_trichotomy (score a.2) (score b.2) with h | h | h
  · exact Or.inr (Or.inl h)
  · rcases Nat.le_total a.1 b.1 with h2 | h2
    · exact Or.inl (Or.inr ⟨h, h2⟩)
    · exact Or.inr (Or.inr ⟨h.symm, h2⟩)
  · exact Or.inl (Or.inl h)

instance (score : List Char → ℚ) : IsTrans (Nat × List Char) (rankRel score) := by
  constructor
  intro a b c hab hbc
  rcases hab with h1 | h1
  · rcases hbc with h2 | h2
    · exact Or.inl (lt_trans h2 h1)
    · exact Or.inl (h2.1 ▸ h1)
  · rcases hbc with h2 | h2
    · exact Or.inl (by rw [h1.1]; exact h2)
    · exact Or.inr ⟨h1.1.trans h2.1, le_trans h1.2 h2.2⟩

/-- Modelled from the spec: `search(query_embedding, k)` over an index of
insertion-ordered chunks — rank all chunks by `rankRel` and keep the first
`k`. -/
def search (score : List Char → ℚ) (chunks : List (List Char)) (k : Nat) :
    List (Nat × List Char) :=
  (chunks.enum.insertionSort (rankRel score)).take k

/-- The retrieval step of `analyze_query` (src/app.py lines 82-84) with its
`k = 5`; the returned pair makes the (un)changed index explicit so that
mutation-freedom is expressible. -/
def retrieveStep (score : List Char → ℚ) (idx : List (List Char)) :
    List (Nat × List Char) × List (List Char) :=
  (search score idx 5, idx)

/-! ### The `process_pdf` cache (src/app.py lines 57-76, 124-132)

`@st.cache_resource` memoizes `process_pdf` on its argument `file_path`;
the caller writes the uploaded bytes to a fresh `NamedTemporaryFile` on
every script rerun and passes that temporary path.  The model makes the
memoization table and the number of embedding-backend invocations
explicit. -/

/-- The memoization table of `@st.cache_resource` (keyed by the `file_path`
argument) together with a count of embedding-backend invocations. -/
structure AppState where
  cache : List (String × List (List Char))
  embedCalls : Nat

/-- Ingest, chunk and index a document (the body of `process_pdf`); the
index is modelled by its insertion-ordered chunk sequence. -/
def buildIndex (doc : List Char) : List (List Char) := chunkText doc

/-- `process_pdf` under `@st.cache_resource`: a cache hit on the `path`
argument returns the stored index; a miss runs the body, which invokes the
embedding backend, and stores the result under `path`. -/
def process_pdf (path : String) (doc : List Char) (st : AppState) :
    List (List Char) × AppState :=
  match st.cache.lookup path with
  | some idx => (idx, st)
  | none =>
    let idx := buildIndex doc
    (idx, ⟨(path, idx) :: st.cache, st.embedCalls + 1⟩)

/-! ### Calendar arithmetic lemmas -/

lemma daysInMonth_pos (y m : Nat) : 1 ≤ daysInMonth y m := by
  unfold daysInMonth; split_ifs <;> omega

lemma daysInMonth_le_31 (y m : Nat) : daysInMonth y m ≤ 31 := by
  unfold daysInMonth; split_ifs <;> omega

lemma daysInYear_pos (y : Nat) : 1 ≤ daysInYear y := by
  unfold daysInYear; split_ifs <;> omega

lemma dBY_succ (y : Nat) (hy : 1 ≤ y) :
    daysBeforeYear (y + 1) = daysBeforeYear y + daysInYear y := by
  obtain ⟨b, rfl⟩ : ∃ b, y = b + 1 := ⟨y - 1, by omega⟩
  have h1 : daysBeforeYear (b + 1 + 1) =
      365 * (b + 1) + (b + 1) / 4 - (b + 1) / 100 + (b + 1) / 400 := by
    simp [daysBeforeYear]
  have h2 : daysBeforeYear (b + 1) = 365 * b + b / 4 - b / 100 + b / 400 := by
    simp [daysBeforeYear]
  have h3 : daysInYear (b + 1) =
      if (b + 1) % 4 = 0 ∧ ((b + 1) % 100 ≠ 0 ∨ (b + 1) % 400 = 0) then 366
      else 365 := by
    simp [daysInYear, isLeap]
  rw [h1, h2, h3]
  split_ifs with h <;> omega

lemma dBY_one : daysBeforeYear 1 = 0 := rfl

lemma dBY_mono {y y' : Nat} (h : y ≤ y') : daysBeforeYear y ≤ daysBeforeYear y' := by
  induction y', h using Nat.le_induction with
  | base => exact le_refl _
  | succ n hn ih =>
    rcases Nat.eq_zero_or_pos n with h0 | hpos
    · subst h0
      have hy0 : y = 0 := by omega
      subst hy0
      exact Nat.le_refl _
    · calc daysBeforeYear y ≤ daysBeforeYear n := ih
        _ ≤ daysBeforeYear (n + 1) := by rw [dBY_succ n hpos]; omega

lemma monthLengths_length (y : Nat) : (monthLengths y).length = 12 := rfl

lemma getD_monthLengths (y m : Nat) (h1 : 1 ≤ m) (h2 : m ≤ 12) :
    (monthLengths y).getD (m - 1) 0 = daysInMonth y m := by
  interval_cases m <;> simp [monthLengths, daysInMonth]

lemma dBM_succ (y m : Nat) (h1 : 1 ≤ m) (h2 : m ≤ 12) :
    daysBeforeMonth y (m + 1) = daysBeforeMonth y m + daysInMonth y m := by
  interval_cases m <;> cases h : isLeap y <;>
    simp [daysBeforeMonth, monthLengths, daysInMonth, h]

lemma dBM_add_dim_le (y m d : Nat) (h1 : 1 ≤ m) (h2 : m ≤ 12)
    (h3 : d ≤ daysInMonth y m) : daysBeforeMonth y m + d ≤ daysInYear y := by
  interval_cases m <;> cases h : isLeap y <;>
    simp [daysBeforeMonth, monthLengths, daysInMonth, daysInYear, h] at h3 ⊢ <;> omega

lemma dim_12 (y : Nat) : daysInMonth y 12 = 31 := rfl

lemma dBM12_31 (y : Nat) : daysBeforeMonth y 12 + 31 = daysInYear y := by
  cases h : isLeap y <;>
    simp [daysBeforeMonth, monthLengths, daysInYear, h]

lemma ValidT_mk (y m d : Nat) : ValidT (y, m, d) = ValidDate y m d := rfl

lemma toOrdinalT_mk (y m d : Nat) : toOrdinalT (y, m, d) = toOrdinal y m d := rfl

lemma toOrdinal_eq (y m d : Nat) :
    toOrdinal y m d = daysBeforeYear y + daysBeforeMonth y m + d := rfl

lemma toOrdinalT_pos (t : Nat × Nat × Nat) (h : 1 ≤ t.2.2) : 1 ≤ toOrdinalT t := by
  obtain ⟨y, m, d⟩ := t
  replace h : 1 ≤ d := h
  rw [toOrdinalT_mk, toOrdinal_eq]
  omega

lemma toOrdinalT_le_max (t : Nat × Nat × Nat) (hv : ValidT t) :
    toOrdinalT t ≤ maxOrdinal := by
  obtain ⟨y, m, d⟩ := t
  replace hv : ValidDate y m d := hv
  obtain ⟨hy1, hy2, hm1, hm2, hd1, hd2⟩ := hv
  have h1 : daysBeforeMonth y m + d ≤ daysInYear y := dBM_add_dim_le y m d hm1 hm2 hd2
  have h2 : daysBeforeYear y + daysInYear y = daysBeforeYear (y + 1) :=
    (dBY_succ y hy1).symm
  have h3 : daysBeforeYear (y + 1) ≤ daysBeforeYear 10000 := dBY_mono (by omega)
  have h4 : daysBeforeYear 10000 = maxOrdinal := by decide
  rw [toOrdinalT_mk, toOrdinal_eq]
  omega

lemma toOrdinal_nextDayT (t : Nat × Nat × Nat) (hv : ValidT t) :
    toOrdinalT (nextDay t) = toOrdinalT t + 1 := by
  obtain ⟨y, m, d⟩ := t
  replace hv : ValidDate y m d := hv
  obtain ⟨hy1, hy2, hm1, hm2, hd1, hd2⟩ := hv
  simp only [nextDay]
  split_ifs with h1 h2
  · show daysBeforeYear y + daysBeforeMonth y m + (d + 1)
        = daysBeforeYear y + daysBeforeMonth y m + d + 1
    omega
  · show daysBeforeYear y + daysBeforeMonth y (m + 1) + 1
        = daysBeforeYear y + daysBeforeMonth y m + d + 1
    rw [dBM_succ y m hm1 hm2]
    omega
  · have hm : m = 12 := by omega
    subst hm
    have hd' : d = 31 := by have := dim_12 y; omega
    subst hd'
    show daysBeforeYear (y + 1) + daysBeforeMonth (y + 1) 1 + 1
        = daysBeforeYear y + daysBeforeMonth y 12 + 31 + 1
    rw [dBY_succ y hy1]
    have h31 := dBM12_31 y
    have hb1 : daysBeforeMonth (y + 1) 1 = 0 := rfl
    omega

lemma nextDay_validT (t : Nat × Nat × Nat) (hv : ValidT t)
    (hlt : toOrdinalT t < maxOrdinal) : ValidT (nextDay t) := by
  obtain ⟨y, m, d⟩ := t
  replace hv : ValidDate y m d := hv
  rw [toOrdinalT_mk] at hlt
  obtain ⟨hy1, hy2, hm1, hm2, hd1, hd2⟩ := hv
  simp only [nextDay]
  split_ifs with h1 h2
  · show ValidDate y m (d + 1)
    exact ⟨hy1, hy2, hm1, hm2, by omega, by omega⟩
  · show ValidDate y (m + 1) 1
    exact ⟨hy1, hy2, by omega, by omega, by omega, daysInMonth_pos y (m + 1)⟩
  · have hm : m = 12 := by omega
    subst hm
    have hd' : d = 31 := by have := dim_12 y; omega
    subst hd'
    have hy' : y < 9999 := by
      rcases Nat.lt_or_ge y 9999 with h | h
      · exact h
      · have heq : y = 9999 := by omega
        subst heq
        have hmax : maxOrdinal = toOrdinal 9999 12 31 := rfl
        omega
    show ValidDate (y + 1) 1 1
    have hp := daysInMonth_pos (y + 1) 1
    exact ⟨by omega, by omega, by omega, by omega, by omega, hp⟩

lemma prevDay_nextDayT (t : Nat × Nat × Nat) (hv : ValidT t) :
    prevDay (nextDay t) = t := by
  obtain ⟨y, m, d⟩ := t
  replace hv : ValidDate y m d := hv
  obtain ⟨hy1, hy2, hm1, hm2, hd1, hd2⟩ := hv
  simp only [nextDay]
  split_ifs with h1 h2
  · simp only [prevDay]
    rw [if_pos (by omega : 1 < d + 1)]
    simp
  · have hd : d = daysInMonth y m := by omega
    simp only [prevDay]
    rw [if_neg (by omega : ¬ (1:Nat) < 1), if_pos (by omega : 1 < m + 1)]
    simp [Prod.ext_iff]
    omega
  · have hm : m = 12 := by omega
    subst hm
    have hd' : d = 31 := by have := dim_12 y; omega
    subst hd'
    simp only [prevDay]
    rw [if_neg (by omega : ¬ (1:Nat) < 1), if_neg (by omega : ¬ (1:Nat) < 1)]
    simp

lemma splitMonths_spec : ∀ (ls : List Nat) (i m0 d : Nat), i < ls.length →
    1 ≤ d → d ≤ ls.getD i 0 →
    splitMonths ls m0 ((ls.take i).sum + d) = (m0 + i, d) := by
  intro ls
  induction ls with
  | nil => intro i _ _ h; simp at h
  | cons l ls ih =>
    intro i m0 d hi hd1 hd2
    cases i with
    | zero =>
      simp only [List.take_zero, List.sum_nil, Nat.zero_add, Nat.add_zero]
      simp only [List.getD_cons_zero] at hd2
      simp only [splitMonths]
      rw [if_pos hd2]
    | succ i =>
      simp only [List.take_succ_cons, List.sum_cons, List.getD_cons_succ] at hi hd2 ⊢
      simp only [List.length_cons] at hi
      simp only [splitMonths]
      rw [if_neg (by omega : ¬ l + (List.take i ls).sum + d ≤ l)]
      have harg : l + (List.take i ls).sum + d - l = (List.take i ls).sum + d := by
        omega
      rw [harg, ih i (m0 + 1) d (by omega) hd1 hd2]
      have hm : m0 + 1 + i = m0 + (i + 1) := by omega
      rw [hm]

lemma go_shift (y : Nat) (hy : 1 ≤ y) :
    ∀ f j, 1 ≤ j →
      fromOrdinalGo (y - 1 + f) 1 (daysBeforeYear y + j) = fromOrdinalGo f y j := by
  induction y, hy using Nat.le_induction with
  | base =>
    intro f j hj
    simp [dBY_one]
  | succ n hn ih =>
    intro f j hj
    have h1 : n + 1 - 1 + f = n - 1 + (f + 1) := by omega
    rw [h1, dBY_succ n hn]
    have h2 : daysBeforeYear n + daysInYear n + j
        = daysBeforeYear n + (daysInYear n + j) := by omega
    rw [h2, ih (f + 1) (daysInYear n + j) (by have := daysInYear_pos n; omega)]
    show fromOrdinalGo (f + 1) n (daysInYear n + j) = fromOrdinalGo f (n + 1) j
    simp only [fromOrdinalGo]
    rw [if_neg (by omega : ¬ daysInYear n + j ≤ daysInYear n)]
    have h3 : daysInYear n + j - daysInYear n = j := by omega
    rw [h3]

lemma fromOrdinal_toOrdinalT (t : Nat × Nat × Nat) (hv : ValidT t) :
    fromOrdinal (toOrdinalT t) = t := by
  obtain ⟨y, m, d⟩ := t
  replace hv : ValidDate y m d := hv
  obtain ⟨hy1, hy2, hm1, hm2, hd1, hd2⟩ := hv
  have hk1 : 1 ≤ daysBeforeMonth y m + d := by omega
  have hk2 : daysBeforeMonth y m + d ≤ daysInYear y :=
    dBM_add_dim_le y m d hm1 hm2 hd2
  rw [toOrdinalT_mk, toOrdinal_eq]
  simp only [fromOrdinal]
  rw [Nat.add_assoc]
  rw [show (10000 : Nat) = y - 1 + (10001 - y) from by omega]
  rw [go_shift y hy1 (10001 - y) (daysBeforeMonth y m + d) hk1]
  rw [show 10001 - y = (10000 - y) + 1 from by omega]
  simp only [fromOrdinalGo]
  rw [if_pos hk2]
  have hi : m - 1 < (monthLengths y).length := by rw [monthLengths_length]; omega
  have hget : d ≤ (monthLengths y).getD (m - 1) 0 := by
    rw [getD_monthLengths y m hm1 hm2]; exact hd2
  have hsm := splitMonths_spec (monthLengths y) (m - 1) 1 d hi hd1 hget
  rw [show ((monthLengths y).take (m - 1)).sum = daysBeforeMonth y m from rfl] at hsm
  rw [hsm]
  have hm' : 1 + (m - 1) = m := by omega
  rw [hm']

lemma iterate_valid_ord (k : Nat) : ∀ t : Nat × Nat × Nat, ValidT t →
    toOrdinalT t + k ≤ maxOrdinal →
    ValidT (nextDay^[k] t) ∧ toOrdinalT (nextDay^[k] t) = toOrdinalT t + k := by
  induction k with
  | zero =>
    intro t hv _
    simpa using hv
  | succ k ih =>
    intro t hv hle
    have hvn : ValidT (nextDay t) := nextDay_validT t hv (by omega)
    have hon : toOrdinalT (nextDay t) = toOrdinalT t + 1 := toOrdinal_nextDayT t hv
    rw [Function.iterate_succ_apply]
    obtain ⟨ha, hb⟩ := ih (nextDay t) hvn (by omega)
    exact ⟨ha, by omega⟩

lemma fromOrdinal_add (t : Nat × Nat × Nat) (k : Nat) (hv : ValidT t)
    (hle : toOrdinalT t + k ≤ maxOrdinal) :
    fromOrdinal (toOrdinalT t + k) = nextDay^[k] t := by
  obtain ⟨ha, hb⟩ := iterate_valid_ord k t hv hle
  rw [← hb, fromOrdinal_toOrdinalT _ ha]

lemma exists_valid_ord (n : Nat) (h1 : 1 ≤ n) :
    n ≤ maxOrdinal → ∃ t, ValidT t ∧ toOrdinalT t = n := by
  induction n, h1 using Nat.le_induction with
  | base =>
    intro _
    exact ⟨(1, 1, 1), by decide, by decide⟩
  | succ n hn ih =>
    intro h2
    obtain ⟨t, hv, hord⟩ := ih (by omega)
    refine ⟨nextDay t, nextDay_validT t hv (by omega), ?_⟩
    rw [toOrdinal_nextDayT t hv, hord]

lemma prev_next_iterate (k : Nat) : ∀ t : Nat × Nat × Nat, ValidT t →
    toOrdinalT t + k ≤ maxOrdinal → prevDay^[k] (nextDay^[k] t) = t := by
  induction k with
  | zero => intro t _ _; simp
  | succ k ih =>
    intro t hv hle
    have hvn : ValidT (nextDay t) := nextDay_validT t hv (by omega)
    have hon : toOrdinalT (nextDay t) = toOrdinalT t + 1 := toOrdinal_nextDayT t hv
    rw [Function.iterate_succ_apply, Function.iterate_succ_apply']
    obtain ⟨hvk, hok⟩ := iterate_valid_ord k t hv (by omega)
    rw [prevDay_nextDayT _ hvk]
    exact ih t hv (by omega)

/-! ### Formatting and parsing round-trip -/

lemma dChar_toNat (k : Nat) (h : k < 10) : (dChar k).toNat = 48 + k := by
  interval_cases k <;> rfl

lemma isD_dChar (k : Nat) (h : k < 10) : isD (dChar k) = true := by
  interval_cases k <;> rfl

lemma digitVal_dChar (k : Nat) (h : k < 10) : digitVal (dChar k) = k := by
  interval_cases k <;> rfl

lemma parseM_pad2 (m : Nat) (h1 : 1 ≤ m) (h2 : m ≤ 12) (rest : List Char) :
    parseM (pad2 m ++ rest) = some (m, rest) := by
  interval_cases m <;> rfl

lemma parseD_pad2 (d : Nat) (h1 : 1 ≤ d) (h2 : d ≤ 31) (rest : List Char) :
    parseD (pad2 d ++ rest) = some (d, rest) := by
  interval_cases d <;> rfl

lemma parse_format (y m d : Nat) (hv : ValidDate y m d) :
    strptimeYmd (formatDate y m d) = some (y, m, d) := by
  obtain ⟨hy1, hy2, hm1, hm2, hd1, hd2⟩ := hv
  have hd31 : d ≤ 31 := le_trans hd2 (daysInMonth_le_31 y m)
  have ha : y / 1000 % 10 < 10 := Nat.mod_lt _ (by omega)
  have hb : y / 100 % 10 < 10 := Nat.mod_lt _ (by omega)
  have hc : y / 10 % 10 < 10 := Nat.mod_lt _ (by omega)
  have he : y % 10 < 10 := Nat.mod_lt _ (by omega)
  show parseYmd (dChar (y / 1000 % 10) :: dChar (y / 100 % 10) ::
    dChar (y / 10 % 10) :: dChar (y % 10) :: '-' :: (pad2 m ++ '-' :: pad2 d))
    = some (y, m, d)
  simp only [parseYmd]
  rw [if_pos ⟨isD_dChar _ ha, isD_dChar _ hb, isD_dChar _ hc, isD_dChar _ he, rfl⟩]
  rw [parseM_pad2 m hm1 hm2 ('-' :: pad2 d)]
  simp only [parseYmdTail1]
  rw [if_pos (show ('-').toNat = 45 from rfl)]
  have hD : parseD (pad2 d) = some (d, []) := by
    have h := parseD_pad2 d hd1 hd31 []
    rwa [List.append_nil] at h
  rw [hD]
  simp only [parseYmdTail2]
  have hY : ((digitVal (dChar (y / 1000 % 10)) * 10 + digitVal (dChar (y / 100 % 10)))
        * 10 + digitVal (dChar (y / 10 % 10))) * 10 + digitVal (dChar (y % 10)) = y := by
    rw [digitVal_dChar _ ha, digitVal_dChar _ hb, digitVal_dChar _ hc,
      digitVal_dChar _ he]
    omega
  rw [hY]
  rw [if_pos ⟨hy1, hd2⟩]

/-! ### Claim theorems for the tool set -/

/-- Claim C2: for every well-formed `YYYY-MM-DD` start date and every number
of days such that the result is a representable date, `calculate_deadline`
returns the date obtained by adding that many calendar days, formatted in
the same `YYYY-MM-DD` format. -/
theorem calculate_deadline_adds_days (y m d : Nat) (j : Int) (hv : ValidDate y m d)
    (h1 : 1 ≤ (toOrdinal y m d : Int) + j)
    (h2 : (toOrdinal y m d : Int) + j ≤ (maxOrdinal : Int)) :
    calculate_deadline (formatDate y m d) j
      = .ok (formatTriple (addDaysSpec (y, m, d) j)) := by
  have hp := parse_format y m d hv
  have hvT : ValidT (y, m, d) := hv
  have hmax : toOrdinalT (y, m, d) ≤ maxOrdinal := toOrdinalT_le_max _ hvT
  have hTmk : toOrdinalT (y, m, d) = toOrdinal y m d := rfl
  simp only [calculate_deadline, hp]
  split_ifs with hcond
  · congr 1
    unfold addDaysSpec
    split_ifs with hj
    · have hk : ((toOrdinal y m d : Int) + j).toNat = toOrdinalT (y, m, d) + j.toNat := by
        rw [hTmk]; omega
      rw [hk, fromOrdinal_add (y, m, d) j.toNat hvT (by rw [hTmk]; omega)]
    · have hn1 : 1 ≤ ((toOrdinal y m d : Int) + j).toNat := by omega
      have hn2 : ((toOrdinal y m d : Int) + j).toNat ≤ maxOrdinal := by omega
      obtain ⟨t', hv', hord'⟩ := exists_valid_ord _ hn1 hn2
      have hsum : toOrdinalT t' + (-j).toNat = toOrdinalT (y, m, d) := by
        rw [hord', hTmk]; omega
      have hnext : nextDay^[(-j).toNat] t' = (y, m, d) := by
        have hfa := fromOrdinal_add t' (-j).toNat hv' (by rw [hsum]; exact hmax)
        rw [hsum] at hfa
        rw [← hfa, fromOrdinal_toOrdinalT _ hvT]
      have hprev : prevDay^[(-j).toNat] (y, m, d) = t' := by
        rw [← hnext]
        exact prev_next_iterate (-j).toNat t' hv' (by rw [hsum]; exact hmax)
      rw [hprev]
      have hton : ((toOrdinal y m d : Int) + j).toNat = toOrdinalT t' := by
        rw [hord']
      rw [hton, fromOrdinal_toOrdinalT t' hv']
  · exact (hcond ⟨h1, h2⟩).elim

/-- Witness for C2: the spec's concrete instance
`calculate_deadline("2024-01-01", 30) = "2024-01-31"`, obtained from
`calculate_deadline_adds_days` at `2024-01-01` and `30`. -/
theorem calculate_deadline_adds_days_witness :
    calculate_deadline "2024-01-01" 30 = .ok "2024-01-31" := by
  have h := calculate_deadline_adds_days 2024 1 1 30 (by decide) (by decide) (by decide)
  rw [show formatDate 2024 1 1 = "2024-01-01" from rfl] at h
  rw [h]
  rfl

/-- Claim C3 counterexample: `"2024-1-5"` is not a well-formed `YYYY-MM-DD`
calendar date, yet `calculate_deadline` does not return an error value on
it — the `%Y-%m-%d` parser also accepts non-zero-padded month and day, so
the call returns the valid date string `"2024-01-05"`. -/
theorem calculate_deadline_accepts_unpadded :
    calculate_deadline "2024-1-5" 0 = .ok "2024-01-05"
    ∧ ¬ WellFormedYmd "2024-1-5"
    ∧ WellFormedYmd "2024-01-05" := by
  refine ⟨by rfl, ?_, ⟨2024, 1, 5, by decide, by rfl⟩⟩
  rintro ⟨y, m, d, hv, heq⟩
  have h1 : (formatDate y m d).length = 10 := rfl
  have h2 : ("2024-1-5" : String).length = 8 := rfl
  rw [heq] at h2
  omega

/-- Claim C3 (amended): for every start date string that the `%Y-%m-%d`
parser rejects — in particular `"2024-13-01"` — `calculate_deadline`
returns the fixed error string rather than raising; strings that denote a
valid calendar date without zero padding are however accepted, not
rejected. -/
theorem calculate_deadline_error_on_unparsable (s : String) (j : Int)
    (h : strptimeYmd s = none) :
    calculate_deadline s j = .ok "Error: Use YYYY-MM-DD format." := by
  unfold calculate_deadline
  rw [h]

/-- Witness for the amended C3: the spec's example `"2024-13-01"` is
rejected by the parser and yields the error string. -/
theorem calculate_deadline_error_on_unparsable_witness :
    strptimeYmd "2024-13-01" = none
    ∧ calculate_deadline "2024-13-01" 5 = .ok "Error: Use YYYY-MM-DD format." :=
  ⟨by rfl, calculate_deadline_error_on_unparsable "2024-13-01" 5 (by rfl)⟩

/-- Claim C10: `calculate_deadline` catches only `ValueError`, so for the
well-formed start date `"2024-01-01"` and `days = 3000000` (whose result
falls outside the representable calendar range) the call raises
`OverflowError` instead of returning the designated error string. -/
theorem calculate_deadline_overflow_raises :
    WellFormedYmd "2024-01-01"
    ∧ calculate_deadline "2024-01-01" 3000000 = .error PyExn.overflowError :=
  ⟨⟨2024, 1, 1, by decide, by rfl⟩, by rfl⟩

/-- Claim C1: `re.findall` on the monetary pattern returns only the
capturing group, so `extract_monetary_values` yields just the currency
marker and drops the numeric amount — on `"$2,500.00"` the result is
`["$"]`, not `["$2,500.00"]`. -/
theorem extract_monetary_values_marker_only :
    extract_monetary_values "$2,500.00" = ["$"]
    ∧ extract_monetary_values
        "Tenant shall pay $2,500.00 per month, due within 30 days." = ["$"] := by
  exact ⟨by decide, by decide⟩

/-! ### Chunker lemmas -/

lemma chunkText_eq (s : List Char) :
    chunkText s = if s.length ≤ 1000 then [s]
    else s.take 1000 :: chunkText (s.drop (1000 - 150)) := by
  rw [chunkText]
  split <;> rfl

lemma chunkText_small (s : List Char) (h : s.length ≤ 1000) : chunkText s = [s] := by
  rw [chunkText_eq, if_pos h]

lemma chunkText_big (s : List Char) (h : ¬ s.length ≤ 1000) :
    chunkText s = s.take 1000 :: chunkText (s.drop 850) := by
  rw [chunkText_eq, if_neg h]

lemma chunkText_ne_nil (s : List Char) : chunkText s ≠ [] := by
  by_cases h : s.length ≤ 1000
  · rw [chunkText_small s h]; simp
  · rw [chunkText_big s h]; simp

lemma chunkText_head (s : List Char) : (chunkText s).head? = some (s.take 1000) := by
  by_cases h : s.length ≤ 1000
  · rw [chunkText_small s h]
    simp [List.take_of_length_le h]
  · rw [chunkText_big s h]
    rfl

lemma deOverlap_chunkText_aux :
    ∀ n (s : List Char), s.length ≤ n → deOverlap (chunkText s) = s := by
  intro n
  induction n with
  | zero =>
    intro s h
    rw [chunkText_small s (by omega)]
    rfl
  | succ n ih =>
    intro s h
    by_cases h1 : s.length ≤ 1000
    · rw [chunkText_small s h1]
      rfl
    · rw [chunkText_big s h1]
      obtain ⟨r, rs, hr⟩ : ∃ r rs, chunkText (s.drop 850) = r :: rs := by
        rcases hx : chunkText (s.drop 850) with _ | ⟨r, rs⟩
        · exact absurd hx (chunkText_ne_nil _)
        · exact ⟨r, rs, rfl⟩
      rw [hr]
      show (s.take 1000).take ((s.take 1000).length - 150) ++ deOverlap (r :: rs) = s
      have hlen : (s.take 1000).length = 1000 := by
        rw [List.length_take]; omega
      rw [hlen, ← hr, ih (s.drop 850) (by rw [List.length_drop]; omega)]
      rw [List.take_take]
      simp

lemma chunkText_chain_aux : ∀ n (s : List Char), s.length ≤ n →
    List.Chain' (fun a b => a.drop (a.length - 150) = b.take 150
      ∧ (a.drop (a.length - 150)).length = 150) (chunkText s) := by
  intro n
  induction n with
  | zero =>
    intro s h
    rw [chunkText_small s (by omega)]
    simp
  | succ n ih =>
    intro s h
    by_cases h1 : s.length ≤ 1000
    · rw [chunkText_small s h1]
      simp
    · rw [chunkText_big s h1]
      rw [List.chain'_cons']
      constructor
      · intro b hb
        rw [chunkText_head (s.drop 850)] at hb
        simp only [Option.mem_def, Option.some.injEq] at hb
        subst hb
        have hlen : (s.take 1000).length = 1000 := by
          rw [List.length_take]; omega
        constructor
        · rw [hlen, List.take_take]
          norm_num
          rw [List.drop_take]
        · rw [hlen, List.length_drop, hlen]
      · exact ih (s.drop 850) (by rw [List.length_drop]; omega)

lemma chunkText_length_aux : ∀ n (s : List Char), s.length ≤ n →
    (chunkText s).length
      = if s.length ≤ 1000 then 1 else (s.length - 150 + 849) / 850 := by
  intro n
  induction n with
  | zero =>
    intro s h
    rw [chunkText_small s (by omega), if_pos (by omega)]
    rfl
  | succ n ih =>
    intro s h
    by_cases h1 : s.length ≤ 1000
    · rw [chunkText_small s h1, if_pos h1]
      rfl
    · rw [chunkText_big s h1, if_neg h1]
      rw [List.length_cons]
      rw [ih (s.drop 850) (by rw [List.length_drop]; omega)]
      rw [List.length_drop]
      split_ifs with h2 <;> omega

/-! ### Claim theorems for the build and query pipeline -/

/-- Claim C4 (chunker modelled from the spec): for non-empty input,
trimming each non-final chunk's trailing 150 characters and concatenating
reconstructs the input exactly; adjacent chunks overlap by exactly 150
characters; and the chunk count is 1 for input of length at most 1000 and
`ceil((L - 150) / 850)` otherwise. -/
theorem chunking_reconstruction_overlap_count (s : List Char) (_hne : s ≠ []) :
    deOverlap (chunkText s) = s
    ∧ List.Chain' (fun a b => a.drop (a.length - 150) = b.take 150
        ∧ (a.drop (a.length - 150)).length = 150) (chunkText s)
    ∧ (chunkText s).length
        = (if s.length ≤ 1000 then 1 else (s.length - 150 + 849) / 850) :=
  ⟨deOverlap_chunkText_aux s.length s (le_refl _),
   chunkText_chain_aux s.length s (le_refl _),
   chunkText_length_aux s.length s (le_refl _)⟩

/-- Witness for C4 at a concrete 2500-character input (three chunks). -/
theorem chunking_reconstruction_overlap_count_witness :
    List.replicate 2500 'a' ≠ []
    ∧ (deOverlap (chunkText (List.replicate 2500 'a')) = List.replicate 2500 'a'
      ∧ List.Chain' (fun a b => a.drop (a.length - 150) = b.take 150
          ∧ (a.drop (a.length - 150)).length = 150)
          (chunkText (List.replicate 2500 'a'))
      ∧ (chunkText (List.replicate 2500 'a')).length
          = (if (List.replicate 2500 'a').length ≤ 1000 then 1
             else ((List.replicate 2500 'a').length - 150 + 849) / 850)) :=
  ⟨by simp, chunking_reconstruction_overlap_count _ (by simp)⟩

/-- Claim C5 (chunking step modelled from the spec): empty concatenated
document text fails with `EmptyInputError` rather than producing a chunk
sequence. -/
theorem chunkStep_empty_input_error :
    chunkStep [] = .error ChunkErr.emptyInputError := rfl

/-- Claim C6 (index search modelled from the spec): for an index of `n`
chunks, searching with parameter `k` returns exactly `min k n` results,
ordered by descending similarity score with ties broken by insertion
order, all drawn from the index; the retriever uses `k = 5`, so a
RetrievedSet has at most 5 chunks. -/
theorem search_count_order_tiebreak (score : List Char → ℚ)
    (chunks : List (List Char)) (k : Nat) :
    (search score chunks k).length = min k chunks.length
    ∧ List.Sorted (rankRel score) (search score chunks k)
    ∧ (∀ p ∈ search score chunks k, p ∈ chunks.enum)
    ∧ (retrieveStep score chunks).1.length ≤ 5 := by
  have hperm := List.perm_insertionSort (rankRel score) chunks.enum
  have hlen : (chunks.enum.insertionSort (rankRel score)).length = chunks.length := by
    rw [hperm.length_eq, List.enum_length]
  refine ⟨?_, ?_, ?_, ?_⟩
  · rw [search, List.length_take, hlen]
  · exact List.Pairwise.sublist (List.take_sublist _ _)
      (List.sorted_insertionSort (rankRel score) chunks.enum)
  · intro p hp
    have hp2 : p ∈ chunks.enum.insertionSort (rankRel score) :=
      List.take_subset _ _ hp
    exact hperm.mem_iff.mp hp2
  · show (search score chunks 5).length ≤ 5
    rw [search, List.length_take, hlen]
    omega

/-- Claim C7 (code bug): `process_pdf` is memoized on the temporary file
path, not on document identity — feeding the same document through two
distinct fresh paths (as the upload handler does on every rerun) invokes
the embedding backend twice, while the same path is served from the cache;
a different document under a fresh path does trigger a fresh build. -/
theorem process_pdf_keyed_by_path_not_document :
    (process_pdf "/tmp/b.pdf" ("Tenant shall pay rent.".data)
        (process_pdf "/tmp/a.pdf" ("Tenant shall pay rent.".data)
          ⟨[], 0⟩).2).2.embedCalls = 2
    ∧ (process_pdf "/tmp/a.pdf" ("Tenant shall pay rent.".data)
        (process_pdf "/tmp/a.pdf" ("Tenant shall pay rent.".data)
          ⟨[], 0⟩).2).2.embedCalls = 1
    ∧ (process_pdf "/tmp/b.pdf" ("Landlord shall repair.".data)
        (process_pdf "/tmp/a.pdf" ("Tenant shall pay rent.".data)
          ⟨[], 0⟩).2).2.embedCalls = 2 :=
  ⟨rfl, rfl, rfl⟩

/-- Claim C8 (retrieval modelled from the spec, embedding determinism
assumed): running the retrieval step twice with the same scoring function
against the index returned by the first run yields the same RetrievedSet,
and neither run changes the index. -/
theorem retrieveStep_deterministic_and_pure (score : List Char → ℚ)
    (idx : List (List Char)) :
    (retrieveStep score idx).1 = (retrieveStep score ((retrieveStep score idx).2)).1
    ∧ (retrieveStep score idx).2 = idx
    ∧ (retrieveStep score ((retrieveStep score idx).2)).2 = idx :=
  ⟨rfl, rfl, rfl⟩

end LegalApp
